import Mathlib

/-!
Verification of the go-bitcoin repository against its natural-language
specification.

This file shallowly embeds the parts of the source that the checked claims
touch.  Bytes are modelled as `Nat` values (each in `[0, 256)` where it
matters), byte strings as `List Nat`, machine integers as `Nat` with explicit
`% 2 ^ w` at the points where Go truncates, and fallible Go functions as
`Option`-valued Lean functions (`none` models an error return or, where noted
in a doc comment, a runtime panic).  Parsers consume a byte list and return
the parsed value together with the unconsumed tail.

Sections, in order:
  * little-endian byte helpers
  * the varint codec (internal/encoding/varints.go)
  * the script codec and templates (script package, current version)
  * the transaction model (transactions package)
  * the partial Merkle tree reconstructor (encoding package)
  * SipHash-2-4 and the Golomb-coded-set membership test (network package)
  * the script-engine OP_EQUAL opcode
  * the network envelope codec
  * secp256k1 arithmetic and ECDSA verification (eccmath package)

Each claim theorem sits at the end of the file with a doc comment naming the
claim it settles.
-/

/-- Little-endian value of a byte list: `leVal [b0, b1, ...] = b0 + 256*b1 + ...`.
Models `binary.LittleEndian.UintNN` applied to the listed bytes (which are
bytes, hence below 256, whenever they come off a wire buffer). -/
def leVal : List Nat → Nat
  | [] => 0
  | b :: bs => b + 256 * leVal bs

/-- The `k` little-endian bytes of `n` (an encoding of `n % 2 ^ (8*k)`).
Models `binary.LittleEndian.PutUintNN`. -/
def leBytes : Nat → Nat → List Nat
  | 0, _ => []
  | k + 1, n => n % 256 :: leBytes k (n / 256)

/-- Strict fixed-size read: `k` bytes or an error, as Go code that checks
`n != k` after `r.Read(buf)` or uses `io.ReadFull`. -/
def readBytes (k : Nat) (s : List Nat) : Option (List Nat × List Nat) :=
  if s.length < k then none else some (s.take k, s.drop k)

/-! ## Varint codec — internal/encoding/varints.go -/

/-- EncodeVarInt from internal/encoding/varints.go.  Returns the Bitcoin
varint encoding; mirrors the source guards exactly, including the final
guard `i < 0x10000000000000000 - 1` that rejects the maximal uint64. -/
def EncodeVarInt (i : Nat) : Option (List Nat) :=
  if i < 0xfd then some [i]
  else if i < 0x10000 then some (0xfd :: leBytes 2 i)
  else if i < 0x100000000 then some (0xfe :: leBytes 4 i)
  else if i < 0x10000000000000000 - 1 then some (0xff :: leBytes 8 i)
  else none

/-- ReadVarInt from internal/encoding/varints.go: reads one byte and
dispatches on the 0xfd/0xfe/0xff markers. -/
def ReadVarInt (s : List Nat) : Option (Nat × List Nat) :=
  match s with
  | [] => none
  | b :: rest =>
    if b = 0xfd then
      (readBytes 2 rest).map (fun p => (leVal p.1, p.2))
    else if b = 0xfe then
      (readBytes 4 rest).map (fun p => (leVal p.1, p.2))
    else if b = 0xff then
      (readBytes 8 rest).map (fun p => (leVal p.1, p.2))
    else
      some (b, rest)

/-! ## Script codec — script package

The script package appears in the repository in two generations; the current
one (the engine file with witness and locktime support, and the codec file
with the exported CommandStack) declares OP_PUSHDATA4 = 0x4e and is the one
the transactions package compiles against, so it is the version embedded
here. -/

def OP_O : Nat := 0x00
def OP_PUSHDATA1 : Nat := 0x4c
def OP_PUSHDATA2 : Nat := 0x4d
def OP_PUSHDATA4 : Nat := 0x4e
def OP_DUP : Nat := 0x76
def OP_EQUAL : Nat := 0x87
def OP_EQUALVERIFY : Nat := 0x88
def OP_HASH160 : Nat := 0xa9
def OP_CHECKSIG : Nat := 0xac

/-- ScriptCommand: a tagged union of an opcode byte and a data blob, with Go
zero values as defaults (Opcode 0, Data nil). -/
structure ScriptCommand where
  Opcode : Nat := 0
  Data : List Nat := []
  IsData : Bool := false
deriving Repr, DecidableEq, Inhabited

structure Script where
  CommandStack : List ScriptCommand
deriving Repr, DecidableEq, Inhabited

/-- The body of the ParseScript while loop.  Each iteration consumes at least
one byte and bumps `count`, so the loop runs at most `length` times; `fuel`
is a structural bound on the iteration count and is never exhausted when the
loop is entered with `fuel = length + 1` as ParseScript does. -/
def parseScriptLoop (fuel : Nat) (s : List Nat) (count length : Nat) :
    Option (List ScriptCommand × List Nat) :=
  match fuel with
  | 0 => none
  | fuel + 1 =>
    if count < length then
      match s with
      | [] => none
      | b :: s1 =>
        if 1 ≤ b ∧ b ≤ 75 then
          match readBytes b s1 with
          | none => none
          | some (d, s2) =>
            (parseScriptLoop fuel s2 (count + 1 + b) length).map
              (fun p => (⟨0, d, true⟩ :: p.1, p.2))
        else if b = OP_PUSHDATA1 then
          match s1 with
          | [] => none
          | l :: s2 =>
            match readBytes l s2 with
            | none => none
            | some (d, s3) =>
              (parseScriptLoop fuel s3 (count + 1 + (l + 1)) length).map
                (fun p => (⟨0, d, true⟩ :: p.1, p.2))
        else if b = OP_PUSHDATA2 then
          match readBytes 2 s1 with
          | none => none
          | some (lb, s2) =>
            match readBytes (leVal lb) s2 with
            | none => none
            | some (d, s3) =>
              (parseScriptLoop fuel s3 (count + 1 + (leVal lb + 2)) length).map
                (fun p => (⟨0, d, true⟩ :: p.1, p.2))
        else if b = OP_PUSHDATA4 then
          match readBytes 4 s1 with
          | none => none
          | some (lb, s2) =>
            match readBytes (leVal lb) s2 with
            | none => none
            | some (d, s3) =>
              (parseScriptLoop fuel s3 (count + 1 + (leVal lb + 4)) length).map
                (fun p => (⟨0, d, true⟩ :: p.1, p.2))
        else
          (parseScriptLoop fuel s1 (count + 1) length).map
            (fun p => (⟨b, [], false⟩ :: p.1, p.2))
    else
      if count = length then some ([], s) else none

/-- ParseScript from the script codec: a varint total length followed by the
command loop, failing when the commands do not consume exactly that many
bytes. -/
def ParseScript (s : List Nat) : Option (Script × List Nat) :=
  match ReadVarInt s with
  | none => none
  | some (length, s1) =>
    (parseScriptLoop (length + 1) s1 0 length).map (fun p => (⟨p.1⟩, p.2))

/-- Byte emission for one command, as in the serializer (RawBytes): a direct
length byte for data of at most 75 bytes, then OP_PUSHDATA1 / OP_PUSHDATA2 /
OP_PUSHDATA4 at the 0xff and 0xffff thresholds; the 2- and 4-byte lengths are
little-endian and truncate like Go uint16/uint32 conversions. -/
def rawBytesCmd (cmd : ScriptCommand) : List Nat :=
  if cmd.IsData then
    if cmd.Data.length ≤ 75 then cmd.Data.length :: cmd.Data
    else if cmd.Data.length ≤ 0xff then OP_PUSHDATA1 :: cmd.Data.length :: cmd.Data
    else if cmd.Data.length ≤ 0xffff then
      OP_PUSHDATA2 :: (leBytes 2 cmd.Data.length ++ cmd.Data)
    else
      OP_PUSHDATA4 :: (leBytes 4 cmd.Data.length ++ cmd.Data)
  else [cmd.Opcode]

def rawBytesList : List ScriptCommand → List Nat
  | [] => []
  | c :: cs => rawBytesCmd c ++ rawBytesList cs

/-- RawBytes: the script bytes without the varint length. -/
def RawBytes (s : Script) : List Nat := rawBytesList s.CommandStack

/-- Script Serialize: varint length followed by the raw bytes. -/
def SerializeScript (s : Script) : Option (List Nat) :=
  (EncodeVarInt (RawBytes s).length).map (fun l => l ++ RawBytes s)

/-- IsP2wpkhScriptPubKey from the script codec. -/
def Script.IsP2wpkhScriptPubKey (s : Script) : Bool :=
  decide (s.CommandStack.length = 2) &&
  decide ((s.CommandStack.getD 0 default).Opcode = OP_O) &&
  (s.CommandStack.getD 1 default).IsData &&
  decide ((s.CommandStack.getD 1 default).Data.length = 20)

/-- IsP2shScriptPubKey from the script codec. -/
def Script.IsP2shScriptPubKey (s : Script) : Bool :=
  decide (s.CommandStack.length = 3) &&
  decide ((s.CommandStack.getD 0 default).Opcode = OP_HASH160) &&
  (s.CommandStack.getD 1 default).IsData &&
  decide ((s.CommandStack.getD 1 default).Data.length = 20) &&
  decide ((s.CommandStack.getD 2 default).Opcode = OP_EQUAL)

/-- IsP2pkhScriptPubKey from the script codec. -/
def Script.IsP2pkhScriptPubKey (s : Script) : Bool :=
  decide (s.CommandStack.length = 5) &&
  decide ((s.CommandStack.getD 0 default).Opcode = OP_DUP) &&
  decide ((s.CommandStack.getD 1 default).Opcode = OP_HASH160) &&
  (s.CommandStack.getD 2 default).IsData &&
  decide ((s.CommandStack.getD 2 default).Data.length = 20) &&
  decide ((s.CommandStack.getD 3 default).Opcode = OP_EQUALVERIFY) &&
  decide ((s.CommandStack.getD 4 default).Opcode = OP_CHECKSIG)

/-! ## Script engine: stacks and OP_EQUAL — current engine file

The engine stack is a Go slice whose top is the final element; it is
mirrored here as a list whose head is the top, so Go append/pop at the end
become cons/uncons at the head. -/

def pushDataCmd (d : List Nat) : ScriptCommand := ⟨0, d, true⟩

/-- OpEqual from the current engine file: pop two items; on success push a
single 0x01 byte when the Data fields are byte-equal and a single 0x00 byte
otherwise.  The Bool result is the opcode verdict: `false` (from a failed
pop) makes ExecuteCommand fail the script. -/
def OpEqual : List ScriptCommand → Bool × List ScriptCommand
  | [] => (false, [])
  | [_] => (false, [])
  | item1 :: item2 :: rest =>
    if item1.Data = item2.Data then (true, pushDataCmd [0x01] :: rest)
    else (true, pushDataCmd [0x00] :: rest)

/-! ## Transaction model — transactions package (current version, the one
with SegWit support) -/

structure TxIn where
  PrevTx : List Nat := []
  PrevIdx : Nat := 0
  ScriptSig : Script := ⟨[]⟩
  Sequence : Nat := 0
  Witness : List (List Nat) := []
deriving Repr, DecidableEq, Inhabited

structure TxOut where
  Amount : Nat := 0
  ScriptPubKey : Script := ⟨[]⟩
  rawScriptBytes : List Nat := []
deriving Repr, DecidableEq, Inhabited

structure Transaction where
  Version : Nat := 0
  Inputs : List TxIn := []
  Outputs : List TxOut := []
  Locktime : Nat := 0
  IsTestnet : Bool := false
  IsSegwit : Bool := false
deriving Repr, DecidableEq, Inhabited

/-- TxIn.Serialize: reversed previous-tx hash, little-endian index, script
with varint length, little-endian sequence. -/
def SerializeTxIn (t : TxIn) : Option (List Nat) := do
  let sb ← SerializeScript t.ScriptSig
  return t.PrevTx.reverse ++ leBytes 4 t.PrevIdx ++ sb ++ leBytes 4 t.Sequence

/-- TxOut.Serialize: little-endian amount then the script. -/
def SerializeTxOut (t : TxOut) : Option (List Nat) := do
  let sb ← SerializeScript t.ScriptPubKey
  return leBytes 8 t.Amount ++ sb

def serializeTxIns : List TxIn → Option (List Nat)
  | [] => some []
  | t :: ts => do
    let b ← SerializeTxIn t
    let bs ← serializeTxIns ts
    return b ++ bs

def serializeTxOuts : List TxOut → Option (List Nat)
  | [] => some []
  | t :: ts => do
    let b ← SerializeTxOut t
    let bs ← serializeTxOuts ts
    return b ++ bs

/-- The witness block of SerializeSegwit: for each input in order, the varint
number of items followed by each item varint-length-prefixed. -/
def serializeWitnessItems : List (List Nat) → Option (List Nat)
  | [] => some []
  | item :: items => do
    let lb ← EncodeVarInt item.length
    let rest ← serializeWitnessItems items
    return lb ++ item ++ rest

def serializeWitnesses : List TxIn → Option (List Nat)
  | [] => some []
  | t :: ts => do
    let nb ← EncodeVarInt t.Witness.length
    let ib ← serializeWitnessItems t.Witness
    let rest ← serializeWitnesses ts
    return nb ++ ib ++ rest

/-- SerializeLegacy: version, varint input count, inputs, varint output
count, outputs, locktime. -/
def SerializeLegacy (t : Transaction) : Option (List Nat) := do
  let il ← EncodeVarInt t.Inputs.length
  let ins ← serializeTxIns t.Inputs
  let ol ← EncodeVarInt t.Outputs.length
  let outs ← serializeTxOuts t.Outputs
  return leBytes 4 t.Version ++ il ++ ins ++ ol ++ outs ++ leBytes 4 t.Locktime

/-- SerializeSegwit, exactly as the source writes it: the marker and flag
bytes 0x00 0x01 are written FIRST, before the version, then input count,
inputs, output count, outputs, the witness block, and the locktime. -/
def SerializeSegwit (t : Transaction) : Option (List Nat) := do
  let il ← EncodeVarInt t.Inputs.length
  let ins ← serializeTxIns t.Inputs
  let ol ← EncodeVarInt t.Outputs.length
  let outs ← serializeTxOuts t.Outputs
  let wit ← serializeWitnesses t.Inputs
  return [0x00, 0x01] ++ leBytes 4 t.Version ++ il ++ ins ++ ol ++ outs ++
    wit ++ leBytes 4 t.Locktime

/-- Transaction.Serialize: dispatch on the IsSegwit flag. -/
def SerializeTx (t : Transaction) : Option (List Nat) :=
  if t.IsSegwit then SerializeSegwit t else SerializeLegacy t

/-- Relaxed read modelling a bare `r.Read(buf)` whose byte count is not
checked (the witness-item read): an error only when the stream is already
empty, otherwise up to `k` bytes with the zero-initialised remainder of the
Go buffer kept for any shortfall. -/
def readLoose (k : Nat) (s : List Nat) : Option (List Nat × List Nat) :=
  match s with
  | [] => none
  | _ => some (s.take k ++ List.replicate (k - s.length) 0, s.drop k)

/-- ParseTxIn: 32-byte hash (reversed to display order), 4-byte index, the
script-sig — raw bytes for a coinbase input, parsed script otherwise — and
the 4-byte sequence.  The Witness field is left at its nil zero value. -/
def ParseTxIn (s : List Nat) : Option (TxIn × List Nat) := do
  let (prevTxWire, s1) ← readBytes 32 s
  let prevTx := prevTxWire.reverse
  let (idxB, s2) ← readBytes 4 s1
  let prevIdx := leVal idxB
  let isCoinbase := prevIdx = 0xffffffff ∧ ∀ b ∈ prevTx, b = 0
  if isCoinbase then
    let (scriptLen, s3) ← ReadVarInt s2
    let (sb, s4) ← readBytes scriptLen s3
    let scriptSig : Script := if scriptLen = 0 then ⟨[]⟩ else ⟨[⟨0, sb, true⟩]⟩
    let (seqB, s5) ← readBytes 4 s4
    return (⟨prevTx, prevIdx, scriptSig, leVal seqB, []⟩, s5)
  else
    let (scriptSig, s3) ← ParseScript s2
    let (seqB, s4) ← readBytes 4 s3
    return (⟨prevTx, prevIdx, scriptSig, leVal seqB, []⟩, s4)

/-- ReadScriptBytes: varint length then that many raw bytes. -/
def ReadScriptBytes (s : List Nat) : Option (List Nat × List Nat) := do
  let (length, s1) ← ReadVarInt s
  readBytes length s1

/-- ParseTxOut: 8-byte amount, then the raw script bytes; the script is
parsed on a best-effort basis (an unparseable script leaves the empty
script) while the raw bytes are always retained. -/
def ParseTxOut (s : List Nat) : Option (TxOut × List Nat) := do
  let (amtB, s1) ← readBytes 8 s
  let (scriptBytes, s2) ← ReadScriptBytes s1
  let scriptObj : Script :=
    if scriptBytes.length > 0 then
      match ParseScript ((EncodeVarInt scriptBytes.length).getD [] ++ scriptBytes) with
      | some p => p.1
      | none => ⟨[]⟩
    else ⟨[]⟩
  return (⟨leVal amtB, scriptObj, scriptBytes⟩, s2)

def parseTxIns : Nat → List Nat → Option (List TxIn × List Nat)
  | 0, s => some ([], s)
  | n + 1, s => do
    let (t, s1) ← ParseTxIn s
    let (ts, s2) ← parseTxIns n s1
    return (t :: ts, s2)

def parseTxOuts : Nat → List Nat → Option (List TxOut × List Nat)
  | 0, s => some ([], s)
  | n + 1, s => do
    let (t, s1) ← ParseTxOut s
    let (ts, s2) ← parseTxOuts n s1
    return (t :: ts, s2)

/-- One witness stack read by ParseSegwitTransaction, exactly as the source
builds it: the items slice is created with `make([][]byte, numItems)` —
numItems nil entries — and the parsed items are then APPENDED to it, so the
resulting stack holds `2 * numItems` entries, the first half empty. -/
def parseWitnessItems : Nat → List Nat → Option (List (List Nat) × List Nat)
  | 0, s => some ([], s)
  | n + 1, s => do
    let (itemLen, s1) ← ReadVarInt s
    let (item, s2) ← readLoose itemLen s1
    let (items, s3) ← parseWitnessItems n s2
    return (item :: items, s3)

def parseWitnesses : List TxIn → List Nat → Option (List TxIn × List Nat)
  | [], s => some ([], s)
  | t :: ts, s => do
    let (numItems, s1) ← ReadVarInt s
    let (items, s2) ← parseWitnessItems numItems s1
    let witness := List.replicate numItems [] ++ items
    let (ts2, s3) ← parseWitnesses ts s2
    return ({ t with Witness := witness } :: ts2, s3)

/-- ParseSegwitTransaction: flag byte (value unchecked), inputs, outputs,
one witness stack per input, locktime. -/
def ParseSegwitTransaction (s : List Nat) (version : Nat) :
    Option (Transaction × List Nat) := do
  let (_, s1) ← readBytes 1 s
  let (nIn, s2) ← ReadVarInt s1
  let (ins, s3) ← parseTxIns nIn s2
  let (nOut, s4) ← ReadVarInt s3
  let (outs, s5) ← parseTxOuts nOut s4
  let (ins2, s6) ← parseWitnesses ins s5
  let (ltB, s7) ← readBytes 4 s6
  return (⟨version, ins2, outs, leVal ltB, false, true⟩, s7)

/-- ParseLegacyTransaction: the pushed-back first byte is already at the
head of `s`. -/
def ParseLegacyTransaction (s : List Nat) (version : Nat) :
    Option (Transaction × List Nat) := do
  let (nIn, s1) ← ReadVarInt s
  let (ins, s2) ← parseTxIns nIn s1
  let (nOut, s3) ← ReadVarInt s2
  let (outs, s4) ← parseTxOuts nOut s3
  let (ltB, s5) ← readBytes 4 s4
  return (⟨version, ins, outs, leVal ltB, false, false⟩, s5)

/-- ParseTransaction: read five bytes; the first four are the little-endian
version and a fifth 0x00 byte selects the SegWit parser, any other value is
pushed back for the legacy parser. -/
def ParseTransaction (s : List Nat) : Option (Transaction × List Nat) := do
  let (buf5, s1) ← readBytes 5 s
  let version := leVal (buf5.take 4)
  if buf5.getD 4 0 = 0 then ParseSegwitTransaction s1 version
  else ParseLegacyTransaction (buf5.getD 4 0 :: s1) version

/-! ## Fee and Verify — transactions package

TxIn.Value resolves the funding output over the external HTTP transaction
fetcher, an out-of-scope collaborator (spec section 6), so Fee and Verify
are parameterized by the resolver `value`; VerifyInput combines that
resolver with the full script VM and ECDSA stack, so Verify is likewise
parameterized by the per-input verdict `verifyInput`, keeping exactly the
control flow of the source Verify body. -/

/-- The input-sum loop of Fee: uint64 accumulation, an unresolved value
aborts. -/
def sumInputValues (value : TxIn → Option Nat) : List TxIn → Nat → Option Nat
  | [], acc => some acc
  | t :: ts, acc =>
    match value t with
    | none => none
    | some v => sumInputValues value ts ((acc + v) % 2 ^ 64)

/-- The output-sum loop of Fee: uint64 accumulation of the amounts. -/
def sumOutputAmounts : List TxOut → Nat → Nat
  | [], acc => acc
  | o :: os, acc => sumOutputAmounts os ((acc + o.Amount) % 2 ^ 64)

/-- Fee from the transactions package: both sums, then an error when the
outputs exceed the inputs, otherwise the difference. -/
def Fee (t : Transaction) (value : TxIn → Option Nat) : Option Nat :=
  match sumInputValues value t.Inputs 0 with
  | none => none
  | some inputSum =>
    let outputSum := sumOutputAmounts t.Outputs 0
    if outputSum > inputSum then none else some (inputSum - outputSum)

/-- The per-input loop of Verify, indices `i, i+1, ...` for `rem` inputs:
an error aborts, a false verdict returns false, otherwise continue. -/
def verifyInputsLoop (verifyInput : Nat → Option Bool) : Nat → Nat → Option Bool
  | _, 0 => some true
  | i, rem + 1 =>
    match verifyInput i with
    | none => none
    | some false => some false
    | some true => verifyInputsLoop verifyInput (i + 1) rem

/-- Verify from the transactions package: compute the fee first (an error
aborts before any input is examined), then require every input to verify. -/
def Verify (t : Transaction) (value : TxIn → Option Nat)
    (verifyInput : Nat → Option Bool) : Option Bool :=
  match Fee t value with
  | none => none
  | some _ => verifyInputsLoop verifyInput 0 t.Inputs.length

/-! ## The sighash dispatch of VerifyInput -/

/-- Which signature hash VerifyInput computes for an input, and whether the
witness data is handed to the script engine. -/
inductive SighashMode where
  | bip143 (redeem : Option Script) (withWitness : Bool)
  | legacy
deriving Repr, DecidableEq

/-- The dispatch portion of VerifyInput, exactly as the source branches on
the funding script-pub-key: a native P2WPKH template takes the BIP 143
sighash with the witness; a P2SH template recovers the redeem script from
the last script-sig element and takes the BIP 143 sighash with that redeem
script WHETHER OR NOT the redeem script is a witness program (only the
witness hand-off differs); everything else takes the legacy sighash.  The
subsequent script evaluation is outside this definition. -/
def VerifyInputSighashSelect (scriptPubKey scriptSig : Script) :
    Option SighashMode :=
  if scriptPubKey.IsP2wpkhScriptPubKey then some (.bip143 none true)
  else if scriptPubKey.IsP2shScriptPubKey then
    match scriptSig.CommandStack.getLast? with
    | none => none
    | some command =>
      match EncodeVarInt command.Data.length with
      | none => none
      | some lenB =>
        match ParseScript (lenB ++ command.Data) with
        | none => none
        | some p =>
          if p.1.IsP2wpkhScriptPubKey then some (.bip143 (some p.1) true)
          else some (.bip143 (some p.1) false)
  else some .legacy

/-! ## Partial Merkle tree reconstruction — encoding package

MerkleParent is Hash256 of the concatenation; SHA-256 comes from the Go
standard library, outside this repository, so the tree walk is parameterized
by the `hash256` function.  The walk mutates only a cursor and the node
array; the node array is written but never read back during the walk, so the
embedding threads just the cursor position and the two stream indices. -/

/-- Number of nodes Go allocates at level `i` of an empty tree of `total`
leaves: the ceiling of `total / 2 ^ (maxDepth - i)`. -/
def levelNumItems (total maxDepth i : Nat) : Nat :=
  (total + 2 ^ (maxDepth - i) - 1) / 2 ^ (maxDepth - i)

/-- The recursive traverse closure of PopulateTree (renamed populateTraverse
to avoid the Mathlib traversal of the same name).  Arguments after the
streams: fuel (a structural bound on the descent depth, never exhausted when
started at `maxDepth + 1` since every descent step has `depth < maxDepth`),
current depth and index, then hash and flag stream cursors.  Returns the
hash assigned to the current node and the advanced cursors; `none` is the
error return (ran out of flag bits, or ran out of hashes). -/
def populateTraverse (hash256 : List Nat → List Nat) (maxDepth total : Nat)
    (flags : List Nat) (hashes : List (List Nat)) :
    Nat → Nat → Nat → Nat → Nat → Option (List Nat × Nat × Nat)
  | 0, _, _, _, _ => none
  | fuel + 1, depth, index, hashIdx, flagIdx =>
    if flags.length ≤ flagIdx then none
    else
      let flag := flags.getD flagIdx 0
      let flagIdx := flagIdx + 1
      if depth = maxDepth then
        if hashes.length ≤ hashIdx then none
        else some (hashes.getD hashIdx [], hashIdx + 1, flagIdx)
      else if flag = 0 then
        if hashes.length ≤ hashIdx then none
        else some (hashes.getD hashIdx [], hashIdx + 1, flagIdx)
      else
        match populateTraverse hash256 maxDepth total flags hashes fuel
            (depth + 1) (2 * index) hashIdx flagIdx with
        | none => none
        | some (leftHash, h1, f1) =>
          if levelNumItems total maxDepth (depth + 1) > 2 * index + 1 then
            match populateTraverse hash256 maxDepth total flags hashes fuel
                (depth + 1) (2 * index + 1) h1 f1 with
            | none => none
            | some (rightHash, h2, f2) =>
              some (hash256 (leftHash ++ rightHash), h2, f2)
          else
            some (hash256 (leftHash ++ leftHash), h1, f1)

/-- Ceiling base-2 logarithm, the value of
`int(math.Ceil(math.Log2(float64(total))))` for `total ≥ 1` (the float
computation is exact in this range).  The fuel equals the argument and is
never exhausted: the recursion halves a value that starts at most `n`. -/
def ceilLog2Aux : Nat → Nat → Nat
  | 0, _ => 0
  | fuel + 1, n => if n ≤ 1 then 0 else ceilLog2Aux fuel ((n + 1) / 2) + 1

def ceilLog2 (n : Nat) : Nat := ceilLog2Aux n n

/-- PopulateTree: run the walk from the root; error if it fails or if not
all hashes were used.  The corresponding check that all flag bits were used
is commented out in the source, so no such check appears here.  Returns the
reconstructed root.  `maxDepth` is `ceil(log2(total))` as in
NewEmptyMerkleTree (meaningful for `total ≥ 1`). -/
def PopulateTree (hash256 : List Nat → List Nat) (flags : List Nat)
    (hashes : List (List Nat)) (total : Nat) : Option (List Nat) :=
  match populateTraverse hash256 (ceilLog2 total) total flags hashes
      (ceilLog2 total + 1) 0 0 0 0 with
  | none => none
  | some (root, hashIdx, _flagIdx) =>
    if hashIdx = hashes.length then some root else none

/-! ## SipHash-2-4, bit streams and GCS membership — encoding and network
packages -/

/-- Left-rotation of a uint64, as the Go shift-or pairs in sipRound. -/
def rotl64 (x k : Nat) : Nat := ((x <<< k) % 2 ^ 64) ||| (x >>> (64 - k))

/-- One SipHash round, uint64 lane arithmetic. -/
def sipRound (st : Nat × Nat × Nat × Nat) : Nat × Nat × Nat × Nat :=
  let (v0, v1, v2, v3) := st
  let v0 := (v0 + v1) % 2 ^ 64
  let v1 := rotl64 v1 13
  let v1 := v1 ^^^ v0
  let v0 := rotl64 v0 32
  let v2 := (v2 + v3) % 2 ^ 64
  let v3 := rotl64 v3 16
  let v3 := v3 ^^^ v2
  let v0 := (v0 + v3) % 2 ^ 64
  let v3 := rotl64 v3 21
  let v3 := v3 ^^^ v0
  let v2 := (v2 + v1) % 2 ^ 64
  let v1 := rotl64 v1 17
  let v1 := v1 ^^^ v2
  let v2 := rotl64 v2 32
  (v0, v1, v2, v3)

/-- The full-block compression loop of SipHash24: consume 8-byte blocks,
return the final state and the remaining tail of fewer than 8 bytes. -/
def sipBlocks (st : Nat × Nat × Nat × Nat) :
    List Nat → (Nat × Nat × Nat × Nat) × List Nat
  | b0 :: b1 :: b2 :: b3 :: b4 :: b5 :: b6 :: b7 :: rest =>
    let m := leVal [b0, b1, b2, b3, b4, b5, b6, b7]
    let (v0, v1, v2, v3) := st
    let st := sipRound (sipRound (v0, v1, v2, v3 ^^^ m))
    sipBlocks (st.1 ^^^ m, st.2.1, st.2.2.1, st.2.2.2) rest
  | tail => (st, tail)

/-- SipHash24 from internal/encoding/hash.go. -/
def SipHash24 (key0 key1 : Nat) (data : List Nat) : Nat :=
  let v0 := key0 ^^^ 0x736f6d6570736575
  let v1 := key1 ^^^ 0x646f72616e646f6d
  let v2 := key0 ^^^ 0x6c7967656e657261
  let v3 := key1 ^^^ 0x7465646279746573
  let (st, tail) := sipBlocks (v0, v1, v2, v3) data
  let b := ((data.length <<< 56) % 2 ^ 64) ||| leVal tail
  let (v0, v1, v2, v3) := st
  let st := sipRound (sipRound (v0, v1, v2, v3 ^^^ b))
  let v0 := st.1 ^^^ b
  let (v0, v1, v2, v3) := (v0, st.2.1, st.2.2.1 ^^^ 0xff, st.2.2.2)
  let (v0, v1, v2, v3) := sipRound (sipRound (sipRound (sipRound (v0, v1, v2, v3))))
  v0 ^^^ v1 ^^^ v2 ^^^ v3

/-- fastReduction from the GCS file: the upper 64 bits of the 128-bit
product `v * n`, computed with 32-bit splits exactly as the source does. -/
def fastReduction (v n : Nat) : Nat :=
  let vHi := v >>> 32
  let vLo := v % 2 ^ 32
  let nHi := n >>> 32
  let nLo := n % 2 ^ 32
  let vnpHi := vHi * nHi % 2 ^ 64
  let vnpMid := vHi * nLo % 2 ^ 64
  let npvMid := nHi * vLo % 2 ^ 64
  let vnpLo := vLo * nLo % 2 ^ 64
  let carry := (vnpMid % 2 ^ 32 + npvMid % 2 ^ 32 + (vnpLo >>> 32)) >>> 32
  (vnpHi + (vnpMid >>> 32) + (npvMid >>> 32) + carry) % 2 ^ 64

/-- hashToRange from the GCS file: guard n and m below 2^32, map the empty
filter to 0 before any hashing, otherwise fast-reduce the SipHash of the
item into `[0, n*m)`. -/
def hashToRange (item : List Nat) (n m k0 k1 : Nat) : Option Nat :=
  if 2 ^ 32 ≤ n then none
  else if 2 ^ 32 ≤ m then none
  else if n = 0 then some 0
  else some (fastReduction (SipHash24 k0 k1 item) (n * m % 2 ^ 64))

/-- A readable bit stream over a byte slice (encoding package). -/
structure BitStream where
  data : List Nat
  ByteIndex : Nat
  BitIndex : Nat
deriving Repr, DecidableEq

/-- ReadBit: test bit `7 - BitIndex` of the current byte and advance;
reading past the end of the backing slice is an index panic in Go, modelled
as `none`. -/
def ReadBit (bs : BitStream) : Option (Nat × BitStream) :=
  if bs.ByteIndex < bs.data.length then
    let b := bs.data.getD bs.ByteIndex 0
    let res := if Nat.testBit b (7 - bs.BitIndex) then 1 else 0
    let bi := bs.BitIndex + 1
    if bi ≥ 8 then some (res, ⟨bs.data, bs.ByteIndex + 1, 0⟩)
    else some (res, ⟨bs.data, bs.ByteIndex, bi⟩)
  else none

/-- ReadBitsBigEndian as an accumulator loop: `k` bits, most significant
first. -/
def readBitsBE : Nat → Nat → BitStream → Option (Nat × BitStream)
  | 0, acc, bs => some (acc, bs)
  | k + 1, acc, bs =>
    match ReadBit bs with
    | none => none
    | some (bit, bs1) => readBitsBE k (acc * 2 + bit) bs1

/-- The unary quotient loop of golombDecode: count 1-bits up to the first
0-bit.  `fuel` bounds the loop by the remaining stream length and is never
exhausted when set above the total bit count, because every iteration
consumes a bit. -/
def readUnaryQ : Nat → BitStream → Option (Nat × BitStream)
  | 0, _ => none
  | fuel + 1, bs =>
    match ReadBit bs with
    | none => none
    | some (bit, bs1) =>
      if bit = 1 then (readUnaryQ fuel bs1).map (fun p => (p.1 + 1, p.2))
      else some (0, bs1)

/-- golombDecode: unary quotient, then `p` remainder bits, value
`(q <<< p) + r`. -/
def golombDecode (bs : BitStream) (p : Nat) : Option (Nat × BitStream) := do
  let (q, bs1) ← readUnaryQ (bs.data.length * 8 + 1) bs
  let (r, bs2) ← readBitsBE p 0 bs1
  return ((q <<< p) + r, bs2)

structure GolombCodedSet where
  NumItems : Nat
  P : Nat
  M : Nat
  data : List Nat
deriving Repr, DecidableEq

/-- The decode-and-compare loop of Match: up to NumItems deltas; an exact
hit returns true, overshooting the target returns false, a decode error
propagates, exhausting the filter returns false. -/
def matchLoop (p target : Nat) : Nat → BitStream → Nat → Option Bool
  | 0, _, _ => some false
  | rem + 1, bs, lastVal =>
    match golombDecode bs p with
    | none => none
    | some (delta, bs1) =>
      let currentVal := (lastVal + delta) % 2 ^ 64
      if currentVal = target then some true
      else if currentVal > target then some false
      else matchLoop p target rem bs1 currentVal

/-- Match from the GCS file: hash the query item to the filter range, then
stream the deltas back. -/
def Match (g : GolombCodedSet) (item : List Nat) (k0 k1 : Nat) : Option Bool :=
  match hashToRange item g.NumItems g.M k0 k1 with
  | none => none
  | some targetHash => matchLoop g.P targetHash g.NumItems ⟨g.data, 0, 0⟩ 0

/-! ## Network envelope — network package

Hash256 (double SHA-256) comes from the Go standard library, outside this
repository; the codec is parameterized by it. -/

structure NetworkEnvelope where
  Magic : Nat
  Command : List Nat
  PayloadLen : Nat
  PayloadChecksum : Nat
  Payload : List Nat
deriving Repr, DecidableEq

/-- The four big-endian bytes of a uint32, as binary.BigEndian.PutUint32. -/
def beBytes4 (n : Nat) : List Nat :=
  [n / 2 ^ 24 % 256, n / 2 ^ 16 % 256, n / 2 ^ 8 % 256, n % 256]

/-- Byte reversal of a 4-byte quantity: reading little-endian what was
written big-endian. -/
def bswap32 (n : Nat) : Nat := leVal (beBytes4 n)

/-- Serialize on NetworkEnvelope: the magic is written BIG-endian, then the
null-padded 12-byte command, little-endian length and checksum, and the
payload copied into the `PayloadLen`-sized remainder of the buffer (Go copy
semantics: truncated or zero-padded if the stored length disagrees with the
payload).  The source length re-check on the buffer tail is a tautology of
the allocation and has no observable effect. -/
def SerializeEnvelope (e : NetworkEnvelope) : List Nat :=
  beBytes4 e.Magic ++
  (e.Command.take 12 ++ List.replicate (12 - e.Command.length) 0) ++
  leBytes 4 e.PayloadLen ++
  leBytes 4 e.PayloadChecksum ++
  (e.Payload.take e.PayloadLen ++ List.replicate (e.PayloadLen - e.Payload.length) 0)

/-- TrimRight of the 0x00 padding, as the parser strips the command. -/
def dropTrailingZeros (l : List Nat) : List Nat :=
  (l.reverse.dropWhile (· = 0)).reverse

/-- The first four hash bytes read as a little-endian uint32: the checksum
NewNetworkEnvelope stores and ParseNetworkEnvelope recomputes. -/
def checksumOf (hash256 : List Nat → List Nat) (payload : List Nat) : Nat :=
  leVal ((hash256 payload).take 4)

/-- ParseNetworkEnvelope: the magic is read LITTLE-endian, then command
(null padding stripped), length, checksum, payload, and the checksum
validation. -/
def ParseNetworkEnvelope (hash256 : List Nat → List Nat) (s : List Nat) :
    Option NetworkEnvelope := do
  let (magicB, s1) ← readBytes 4 s
  let (cmdB, s2) ← readBytes 12 s1
  let (plB, s3) ← readBytes 4 s2
  let payloadLen := leVal plB
  let (ckB, s4) ← readBytes 4 s3
  let checksum := leVal ckB
  let (payload, _) ← readBytes payloadLen s4
  if checksum = checksumOf hash256 payload then
    return ⟨leVal magicB, dropTrailingZeros cmdB, payloadLen, checksum, payload⟩
  else none

/-! ## secp256k1 and ECDSA verification — eccmath package

Field elements are canonical representatives in `[0, p)` (every constructor
in the source reduces mod p), so the big.Int operations become Nat
arithmetic mod p.  big.Int ModInverse returns nil when no inverse exists;
inside FieldElement.Inv the receiver is then left at its zero value, hence
`(modInverse ...).getD 0`, while inside Verify the nil result is
dereferenced by the following multiplication — a panic, modelled as
`none`. -/

def secpP : Nat := 2 ^ 256 - 2 ^ 32 - 977
def secpN : Nat := 0xFFFFFFFFFFFFFFFFFFFFFFFFFFFFFFFEBAAEDCE6AF48A03BBFD25E8CD0364141
def secpGx : Nat := 0x79BE667EF9DCBBAC55A06295CE870B07029BFCDB2DCE28D959F2815B16F81798
def secpGy : Nat := 0x483ADA7726A3C4655DA4FBFC0E1108A8FD17B448A68554199C47D08FFB10D4B8

/-- Fueled extended Euclid: returns `(gcd a b, x, y)` with
`x*a + y*b = gcd`.  The fuel (1000 at every call site) exceeds the worst
Euclid chain length for all 256-bit inputs. -/
def egcd : Nat → Nat → Nat → Nat × Int × Int
  | 0, a, _ => (a, 1, 0)
  | fuel + 1, a, b =>
    if b = 0 then (a, 1, 0)
    else
      let r := egcd fuel b (a % b)
      (r.1, r.2.2, r.2.1 - (a / b : Int) * r.2.2)

/-- big.Int ModInverse semantics: the inverse of `g` mod `m` when
`gcd(g, m) = 1`, nil (here `none`) otherwise. -/
def modInverse (g m : Nat) : Option Nat :=
  if Nat.gcd g m = 1 then
    some ((((egcd 1000 g m).2.1 % (m : Int) + m) % m).toNat)
  else none

def feAdd (a b : Nat) : Nat := (a + b) % secpP
def feSub (a b : Nat) : Nat := (a + secpP - b) % secpP
def feMul (a b : Nat) : Nat := a * b % secpP
def fePow (a k : Nat) : Nat := a ^ k % secpP
def feInv (a : Nat) : Nat := (modInverse a secpP).getD 0
def feDiv (a b : Nat) : Nat := feMul a (feInv b)

inductive Point where
  | inf
  | mk (x y : Nat)
deriving Repr, DecidableEq

/-- Point.Add from the eccmath package, specialized to the single secp256k1
curve (the curve-equality guard always passes), with the vertical-line,
zero-tangent, doubling and chord cases in source order.  The guarded
divide-by-zero error branches of getSlope and doubleSlope are unreachable
under the case conditions. -/
def pointAdd : Point → Point → Point
  | .inf, q => q
  | p, .inf => p
  | .mk x1 y1, .mk x2 y2 =>
    if x1 = x2 ∧ y1 ≠ y2 then .inf
    else if x1 = x2 ∧ y1 = y2 ∧ y1 = 0 then .inf
    else if x1 = x2 ∧ y1 = y2 then
      let slope := feDiv (feAdd (feMul (fePow x1 2) 3) 0) (feMul y1 2)
      let x3 := feSub (fePow slope 2) (feMul x1 2)
      let y3 := feSub (feMul (feSub x1 x3) slope) y1
      .mk x3 y3
    else
      let slope := feDiv (feSub y2 y1) (feSub x2 x1)
      let x3 := feSub (feSub (fePow slope 2) x1) x2
      let y3 := feSub (feMul (feSub x1 x3) slope) y1
      .mk x3 y3

/-- The double-and-add loop of ScalarMulBig: test the low bit, add, double
the addend, shift. -/
def scalarMulLoop (result addend : Point) (k : Nat) : Point :=
  if k = 0 then result
  else
    scalarMulLoop (if k % 2 = 1 then pointAdd result addend else result)
      (pointAdd addend addend) (k / 2)
termination_by k
decreasing_by simp_wf; omega

def ScalarMulBig (p : Point) (k : Nat) : Point := scalarMulLoop .inf p k

def Gpoint : Point := .mk secpGx secpGy

def ScalarBaseMultiply (k : Nat) : Point := ScalarMulBig Gpoint k

structure Signature where
  r : Nat
  s : Nat
deriving Repr, DecidableEq

/-- Verify on S256Point (renamed ECVerify here; the transaction Verify
shares the source name).  NO range check on r or s is performed: the method
immediately inverts s mod N — when s has no inverse (for instance s = 0)
big.Int ModInverse yields nil and the following multiplication panics
(`none` here) — computes u = z/s and v = r/s mod N, forms uG + v*pub, and
compares that point's x coordinate mod N against r.  When the sum is the
point at infinity its x field is the zero-value FieldElement holding a nil
big.Int, and taking it mod N panics (`none`). -/
def ECVerify (pub : Point) (z : Nat) (sig : Signature) : Option Bool :=
  match modInverse sig.s secpN with
  | none => none
  | some sInv =>
    let u := z * sInv % secpN
    let v := sig.r * sInv % secpN
    let uG := ScalarBaseMultiply u
    let vP := ScalarMulBig pub v
    match pointAdd uG vP with
    | .inf => none
    | .mk x _ => some (decide (x % secpN = sig.r))

/-! ## Concrete inputs and spec-side helpers used by the claim theorems -/

/-- A minimal SegWit transaction: version 1, no inputs, no outputs. -/
def c1Tx : Transaction := { Version := 1, IsSegwit := true }

/-- A valid on-wire SegWit transaction: version 1, marker 0x00, flag 0x01,
one input (non-coinbase, empty script-sig), no outputs, a witness stack of
one 1-byte item 0xAB, locktime 0. -/
def c1Wire : List Nat :=
  [1, 0, 0, 0] ++ [0x00] ++ [0x01] ++ [1] ++
  (List.replicate 32 0x11 ++ [0, 0, 0, 0] ++ [0] ++ [0, 0, 0, 0]) ++
  [0] ++
  ([1] ++ [1] ++ [0xAB]) ++
  [0, 0, 0, 0]

/-- What ParseTransaction returns on c1Wire: the declared single witness
item arrives duplicated behind a nil entry. -/
def c1WireParsed : Transaction :=
  { Version := 1,
    Inputs := [{ PrevTx := List.replicate 32 0x11, PrevIdx := 0,
                 ScriptSig := ⟨[]⟩, Sequence := 0, Witness := [[], [0xAB]] }],
    Outputs := [], Locktime := 0, IsSegwit := true }

/-- A plain (non-SegWit) P2SH script-pub-key: OP_HASH160, twenty zero
bytes, OP_EQUAL. -/
def c2Spk : Script :=
  ⟨[⟨OP_HASH160, [], false⟩, ⟨0, List.replicate 20 0, true⟩, ⟨OP_EQUAL, [], false⟩]⟩

/-- A script-sig whose final push is the one-byte redeem script OP_1 — a
redeem script that is NOT a witness program. -/
def c2Sig : Script := ⟨[⟨0, [0x51], true⟩]⟩

/-- The running-value trace of the Match loop: the successive delta prefix
sums, cut off at the first decode failure.  Spec-side description of the
loop, used to state what Match returns. -/
def runningVals (p : Nat) : Nat → BitStream → Nat → List Nat
  | 0, _, _ => []
  | rem + 1, bs, last =>
    match golombDecode bs p with
    | none => []
    | some (delta, bs1) =>
      let cur := (last + delta) % 2 ^ 64
      cur :: runningVals p rem bs1 cur

/-- Wrapped uint64 sum of a value list, the spec-side description of the
two accumulation loops in Fee. -/
def wrapSum (vals : List Nat) (acc : Nat) : Nat :=
  vals.foldl (fun a v => (a + v) % 2 ^ 64) acc

/-- A one-input one-output transaction for the C7 witness. -/
def c7Tx : Transaction := { Inputs := [{}], Outputs := [{ Amount := 5 }] }

/-- An empty Golomb-coded set with the BIP 158 parameters. -/
def c8EmptyGcs : GolombCodedSet := ⟨0, 19, 784931, []⟩

/-- A concrete hash function standing in for double SHA-256 in witnesses:
32 bytes, each 7. -/
def c10Hash : List Nat → List Nat := fun _ => List.replicate 32 7

/-- A concrete testnet envelope with consistent checksum and length. -/
def c10Env : NetworkEnvelope :=
  ⟨0x0b110907, [0x76], 2, checksumOf c10Hash [9, 9], [9, 9]⟩
theorem leVal_leBytes (k n : Nat) : leVal (leBytes k n) = n % 2 ^ (8 * k) := by
  induction k generalizing n with
  | zero => simp [leBytes, leVal, Nat.mod_one]
  | succ k ih =>
      have hp : (2 : Nat) ^ (8 * (k + 1)) = 256 * 2 ^ (8 * k) := by
        rw [Nat.mul_succ, pow_add]; ring
      simp only [leBytes, leVal, ih, hp, Nat.mod_mul]

theorem leBytes_length (k n : Nat) : (leBytes k n).length = k := by
  induction k generalizing n with
  | zero => rfl
  | succ k ih => simp [leBytes, ih]

theorem readBytes_exact (pre rest : List Nat) :
    readBytes pre.length (pre ++ rest) = some (pre, rest) := by
  unfold readBytes
  rw [if_neg (by simp)]
  simp

theorem readVarInt_marker (m k i : Nat) (rest : List Nat)
    (hm : m = 0xfd ∧ k = 2 ∨ m = 0xfe ∧ k = 4 ∨ m = 0xff ∧ k = 8)
    (hi : i < 2 ^ (8 * k)) :
    ReadVarInt (m :: leBytes k i ++ rest) = some (i, rest) := by
  have hlen := leBytes_length k i
  have hread : readBytes k (leBytes k i ++ rest) = some (leBytes k i, rest) := by
    have h := readBytes_exact (leBytes k i) rest
    rwa [hlen] at h
  have hval : leVal (leBytes k i) = i := by
    rw [leVal_leBytes, Nat.mod_eq_of_lt hi]
  rcases hm with ⟨rfl, rfl⟩ | ⟨rfl, rfl⟩ | ⟨rfl, rfl⟩ <;>
    simp [ReadVarInt, hread, hval]

theorem readVarInt_encodeVarInt (i : Nat) (bs rest : List Nat)
    (henc : EncodeVarInt i = some bs) :
    ReadVarInt (bs ++ rest) = some (i, rest) := by
  unfold EncodeVarInt at henc
  split_ifs at henc with h1 h2 h3 h4 <;>
    injection henc with henc <;> subst henc
  · simp only [List.cons_append, List.nil_append, ReadVarInt]
    rw [if_neg (by omega), if_neg (by omega), if_neg (by omega)]
  · exact readVarInt_marker _ 2 _ rest (by omega) (by norm_num; omega)
  · exact readVarInt_marker _ 4 _ rest (by omega) (by norm_num; omega)
  · exact readVarInt_marker _ 8 _ rest (by omega) (by norm_num; omega)

/-! ## Claim theorems -/

/-- C4, counterexample: the claim asserts EncodeVarInt succeeds for every
uint64 value, but the source guard `i < 0x10000000000000000 - 1` rejects the
maximal uint64 with an error. -/
theorem c4_encodeVarInt_max_uint64_fails :
    EncodeVarInt 0xffffffffffffffff = none := by decide

/-- C4, amended: for every uint64 value except the maximal one, EncodeVarInt
succeeds, selects the minimum-width form (1, 3, 5 or 9 bytes at the
0xfd / 0x10000 / 0x100000000 thresholds), and ReadVarInt applied to the
encoding returns the value, leaving exactly the trailing bytes. -/
theorem c4_varint_minimal_roundtrip (i : Nat) (h : i < 0xffffffffffffffff) :
    ∃ bs, EncodeVarInt i = some bs ∧
      bs.length = (if i < 0xfd then 1 else if i < 0x10000 then 3
        else if i < 0x100000000 then 5 else 9) ∧
      ∀ rest, ReadVarInt (bs ++ rest) = some (i, rest) := by
  have henc : ∃ bs, EncodeVarInt i = some bs := by
    unfold EncodeVarInt
    split_ifs with h1 h2 h3
    all_goals exact ⟨_, rfl⟩
  obtain ⟨bs, henc⟩ := henc
  refine ⟨bs, henc, ?_, fun rest => readVarInt_encodeVarInt i bs rest henc⟩
  unfold EncodeVarInt at henc
  split_ifs at henc with h1 h2 h3
  all_goals
    first
    | exact Option.noConfusion henc
    | (injection henc with henc; subst henc;
       simp only [List.length_cons, List.length_nil, leBytes_length];
       split_ifs <;> omega)

/-- C4 witness: the amended round-trip instantiated at 300 (a 0xfd-marker
value). -/
theorem c4_witness :
    (300 : Nat) < 0xffffffffffffffff ∧
    ∃ bs, EncodeVarInt 300 = some bs ∧
      bs.length = (if (300 : Nat) < 0xfd then 1 else if (300 : Nat) < 0x10000 then 3
        else if (300 : Nat) < 0x100000000 then 5 else 9) ∧
      ∀ rest, ReadVarInt (bs ++ rest) = some (300, rest) :=
  ⟨by norm_num, c4_varint_minimal_roundtrip 300 (by norm_num)⟩

/-- C9, counterexample: on two unequal stack items OP_EQUAL pushes the
single byte 0x00, not the empty byte string the claim asserts. -/
theorem c9_opequal_pushes_zero_byte :
    OpEqual [⟨0, [1], true⟩, ⟨0, [2], true⟩] = (true, [⟨0, [0x00], true⟩]) ∧
    (⟨0, [0x00], true⟩ : ScriptCommand) ≠ ⟨0, [], true⟩ := by decide

/-- C9, amended: OP_EQUAL pops exactly two stack items and pushes the single
byte 0x01 when their byte strings are equal and the single byte 0x00 when
they are not; with fewer than two items it reports failure, the verdict
that fails the script. -/
theorem c9_opequal_behavior (st : List ScriptCommand) :
    (∀ i1 i2 rest, st = i1 :: i2 :: rest →
      OpEqual st = (true,
        (if i1.Data = i2.Data then pushDataCmd [0x01] else pushDataCmd [0x00]) :: rest)) ∧
    (st.length < 2 → (OpEqual st).1 = false) := by
  constructor
  · rintro i1 i2 rest rfl
    rw [OpEqual]
    split <;> rfl
  · intro hlen
    match st with
    | [] => rfl
    | [x] => rfl
    | a :: b :: r => exact absurd hlen (by simp)

/-- C9 witness: the amended behavior instantiated on a two-item stack with
equal payloads. -/
theorem c9_witness :
    OpEqual [⟨0, [3], true⟩, ⟨0, [3], true⟩] =
      (true, (if ([3] : List Nat) = [3] then pushDataCmd [0x01]
        else pushDataCmd [0x00]) :: []) :=
  (c9_opequal_behavior _).1 _ _ _ rfl

/-- C2, counterexample: for a plain legacy P2SH script-pub-key whose redeem
script (a bare OP_1) is not a witness program, VerifyInput still selects the
BIP 143 sighash with the redeem script — not the legacy sighash the claim
asserts. -/
theorem c2_plain_p2sh_gets_bip143 :
    VerifyInputSighashSelect c2Spk c2Sig =
      some (SighashMode.bip143 (some ⟨[⟨0x51, [], false⟩]⟩) false) ∧
    some (SighashMode.bip143 (some ⟨[⟨0x51, [], false⟩]⟩) false) ≠
      some SighashMode.legacy := by decide

/-- C2, amended: the dispatch of VerifyInput sends a native P2WPKH
script-pub-key to BIP 143 with the witness, sends EVERY P2SH script-pub-key
whose script-sig yields a parseable redeem script to BIP 143 with that
redeem script (handing over the witness only when the redeem script is a
witness program), and sends only non-P2WPKH non-P2SH script-pub-keys to the
legacy sighash. -/
theorem c2_dispatch_characterization (spk sig : Script) :
    (spk.IsP2wpkhScriptPubKey = true →
      VerifyInputSighashSelect spk sig = some (.bip143 none true)) ∧
    (spk.IsP2wpkhScriptPubKey = false → spk.IsP2shScriptPubKey = false →
      VerifyInputSighashSelect spk sig = some .legacy) ∧
    (spk.IsP2wpkhScriptPubKey = false → spk.IsP2shScriptPubKey = true →
      ∀ cmd, sig.CommandStack.getLast? = some cmd →
      ∀ lenB, EncodeVarInt cmd.Data.length = some lenB →
      ∀ rs tail, ParseScript (lenB ++ cmd.Data) = some (rs, tail) →
        VerifyInputSighashSelect spk sig =
          some (.bip143 (some rs) rs.IsP2wpkhScriptPubKey)) := by
  refine ⟨?_, ?_, ?_⟩
  · intro h1
    rw [VerifyInputSighashSelect, if_pos h1]
  · intro h1 h2
    rw [VerifyInputSighashSelect, if_neg (by simp [h1]), if_neg (by simp [h2])]
  · intro h1 h2 cmd hcmd lenB hlen rs tail hparse
    rw [VerifyInputSighashSelect, if_neg (by simp [h1]), if_pos (by simp [h2]), hcmd]
    dsimp only
    rw [hlen]
    dsimp only
    rw [hparse]
    dsimp only
    cases hb : rs.IsP2wpkhScriptPubKey <;> simp [hb]

/-- C2 witness: the amended dispatch instantiated at the concrete plain-P2SH
spend. -/
theorem c2_witness :
    VerifyInputSighashSelect c2Spk c2Sig =
      some (SighashMode.bip143 (some ⟨[⟨0x51, [], false⟩]⟩)
        (Script.IsP2wpkhScriptPubKey ⟨[⟨0x51, [], false⟩]⟩)) :=
  (c2_dispatch_characterization c2Spk c2Sig).2.2 (by decide) (by decide)
    ⟨0, [0x51], true⟩ (by decide) [1] (by decide) ⟨[⟨0x51, [], false⟩]⟩ [] (by decide)

/-- C5, confirmed: the script codec treats byte 0x4E as OP_PUSHDATA4.  Part
one: whenever the parse loop is still inside the script and the next opcode
byte is 0x4E (= OP_PUSHDATA4), it consumes the following four bytes as a
little-endian length, then exactly that many data bytes, emits them as one
data command, and accounts five header bytes plus the data in the byte
count.  Part two: serialization emits the direct one-byte push form for
data of at most 75 bytes, OP_PUSHDATA1 up to length 0xff, OP_PUSHDATA2 with
a two-byte little-endian length up to 0xffff, and OP_PUSHDATA4 (byte 0x4E)
with a four-byte little-endian length beyond. -/
theorem c5_pushdata4_codec :
    (∀ l0 l1 l2 l3 : Nat, ∀ data rest : List Nat, ∀ count length fuel : Nat,
      count < length → data.length = leVal [l0, l1, l2, l3] →
      parseScriptLoop (fuel + 1)
          (OP_PUSHDATA4 :: l0 :: l1 :: l2 :: l3 :: (data ++ rest)) count length =
        (parseScriptLoop fuel rest (count + 1 + (data.length + 4)) length).map
          (fun p => (⟨0, data, true⟩ :: p.1, p.2))) ∧
    (∀ d : List Nat, rawBytesCmd ⟨0, d, true⟩ =
      if d.length ≤ 75 then d.length :: d
      else if d.length ≤ 0xff then OP_PUSHDATA1 :: d.length :: d
      else if d.length ≤ 0xffff then
        OP_PUSHDATA2 :: ([d.length % 256, d.length / 256 % 256] ++ d)
      else
        OP_PUSHDATA4 :: ([d.length % 256, d.length / 256 % 256,
          d.length / 65536 % 256, d.length / 16777216 % 256] ++ d)) := by
  constructor
  · intro l0 l1 l2 l3 data rest count length fuel hcl hdl
    have h4 : readBytes 4 (l0 :: l1 :: l2 :: l3 :: (data ++ rest)) =
        some ([l0, l1, l2, l3], data ++ rest) := by
      simpa using readBytes_exact [l0, l1, l2, l3] (data ++ rest)
    have hd : readBytes (leVal [l0, l1, l2, l3]) (data ++ rest) = some (data, rest) := by
      rw [← hdl]; exact readBytes_exact data rest
    simp only [parseScriptLoop, if_pos hcl]
    norm_num [OP_PUSHDATA4, OP_PUSHDATA1, OP_PUSHDATA2]
    rw [h4]
    dsimp only
    rw [hd]
    dsimp only
    rw [hdl]
  · intro d
    simp only [rawBytesCmd, leBytes]
    norm_num [Nat.div_div_eq_div_mul]

/-- C5 witness: the parse equation at a concrete one-byte PUSHDATA4 push and
the serializer shape at a one-byte datum. -/
theorem c5_witness :
    parseScriptLoop (1 + 1) (OP_PUSHDATA4 :: 1 :: 0 :: 0 :: 0 :: ([0xAA] ++ [])) 0 6 =
      (parseScriptLoop 1 [] (0 + 1 + (1 + 4)) 6).map
        (fun p => (⟨0, [0xAA], true⟩ :: p.1, p.2)) ∧
    rawBytesCmd ⟨0, [0xAA], true⟩ =
      (if ([0xAA] : List Nat).length ≤ 75 then ([0xAA] : List Nat).length :: [0xAA]
      else if ([0xAA] : List Nat).length ≤ 0xff then
        OP_PUSHDATA1 :: ([0xAA] : List Nat).length :: [0xAA]
      else if ([0xAA] : List Nat).length ≤ 0xffff then
        OP_PUSHDATA2 :: ([([0xAA] : List Nat).length % 256,
          ([0xAA] : List Nat).length / 256 % 256] ++ [0xAA])
      else
        OP_PUSHDATA4 :: ([([0xAA] : List Nat).length % 256,
          ([0xAA] : List Nat).length / 256 % 256,
          ([0xAA] : List Nat).length / 65536 % 256,
          ([0xAA] : List Nat).length / 16777216 % 256] ++ [0xAA])) :=
  ⟨c5_pushdata4_codec.1 1 0 0 0 [0xAA] [] 0 6 1 (by decide) (by decide),
   c5_pushdata4_codec.2 [0xAA]⟩

/-- C1, code bug: SegWit serialization and parsing do not round-trip.
SerializeSegwit writes the marker and flag bytes BEFORE the version, while
ParseTransaction (like the wire format the spec describes) expects the
version first with the 0x00 marker at byte index four — so re-parsing the
serialization of a version-1 SegWit transaction reads back version 0x10100
= 65792.  Independently, the witness reader allocates the item slice with
`make([][]byte, numItems)` and then APPENDS the parsed items, so a valid
on-wire input advertising one witness item parses into a stack of two items
whose first is nil — and re-serializing that does not reproduce the wire
bytes. -/
theorem c1_segwit_roundtrip_broken :
    SerializeSegwit c1Tx = some [0, 1, 1, 0, 0, 0, 0, 0, 0, 0, 0, 0] ∧
    ParseTransaction [0, 1, 1, 0, 0, 0, 0, 0, 0, 0, 0, 0] =
      some ({ Version := 65792, IsSegwit := true }, []) ∧
    ({ Version := 65792, IsSegwit := true } : Transaction) ≠ c1Tx ∧
    ParseTransaction c1Wire = some (c1WireParsed, []) ∧
    (c1WireParsed.Inputs.getD 0 default).Witness = [[], [0xAB]] ∧
    (c1WireParsed.Inputs.getD 0 default).Witness.length ≠ 1 ∧
    SerializeTx c1WireParsed ≠ some c1Wire := by decide

/-- C6, counterexample: unused trailing flag bits do NOT cause failure.  On
a one-leaf tree, PopulateTree succeeds given two flag bits of which the walk
consumes only one — the source check on flag consumption is commented
out. -/
theorem c6_trailing_flags_tolerated :
    PopulateTree (fun _ => []) [1, 1] [[7]] 1 = some [7] ∧
    populateTraverse (fun _ => []) (ceilLog2 1) 1 [1, 1] [[7]] (ceilLog2 1 + 1) 0 0 0 0 =
      some ([7], 1, 1) ∧
    (1 : Nat) ≠ ([1, 1] : List Nat).length := by decide

/-- C6, amended: population succeeds exactly when the recursive flag-bit
walk completes (it errors as soon as either the flag stream or the hash
stream is exhausted mid-walk) AND all supplied hashes were consumed — with
no requirement on the flag cursor, so trailing unused flag bits are
tolerated.  An empty flag stream and an empty hash stream each yield an
error. -/
theorem c6_populate_success_characterization (hf : List Nat → List Nat)
    (flags : List Nat) (hashes : List (List Nat)) (total : Nat)
    (htotal : 1 ≤ total) :
    (PopulateTree hf flags hashes total ≠ none ↔
      ∃ r f, populateTraverse hf (ceilLog2 total) total flags hashes
        (ceilLog2 total + 1) 0 0 0 0 = some (r, hashes.length, f)) ∧
    PopulateTree hf [] hashes total = none ∧
    PopulateTree hf (0 :: flags) [] total = none := by
  refine ⟨⟨?_, ?_⟩, ?_, ?_⟩
  · intro hne
    unfold PopulateTree at hne
    cases htr : populateTraverse hf (ceilLog2 total) total flags hashes
        (ceilLog2 total + 1) 0 0 0 0 with
    | none => rw [htr] at hne; simp at hne
    | some val =>
      obtain ⟨root, hashIdx, flagIdx⟩ := val
      rw [htr] at hne
      dsimp only at hne
      by_cases hh : hashIdx = hashes.length
      · subst hh; exact ⟨root, flagIdx, rfl⟩
      · rw [if_neg hh] at hne; exact absurd rfl hne
  · rintro ⟨r, f, heq⟩
    unfold PopulateTree
    rw [heq]
    simp
  · simp [PopulateTree, populateTraverse]
  · simp only [PopulateTree, populateTraverse, List.getD_cons_zero,
      List.length_nil, List.length_cons]
    split_ifs <;> simp

/-- C6 witness: the amended characterization instantiated on a two-leaf
tree with one included leaf. -/
theorem c6_witness :
    (1 : Nat) ≤ 2 ∧
    ((PopulateTree (fun _ => []) [1, 0, 0] [[5], [6]] 2 ≠ none ↔
      ∃ r f, populateTraverse (fun _ => []) (ceilLog2 2) 2 [1, 0, 0] [[5], [6]]
        (ceilLog2 2 + 1) 0 0 0 0 = some (r, ([[5], [6]] : List (List Nat)).length, f)) ∧
    PopulateTree (fun _ => []) [] [[5], [6]] 2 = none ∧
    PopulateTree (fun _ => []) (0 :: [1, 0, 0]) [] 2 = none) :=
  ⟨by decide, c6_populate_success_characterization (fun _ => []) [1, 0, 0] [[5], [6]] 2 (by decide)⟩

theorem sumInputValues_total (v : TxIn → Nat) (ins : List TxIn) (acc : Nat) :
    sumInputValues (fun x => some (v x)) ins acc = some (wrapSum (ins.map v) acc) := by
  induction ins generalizing acc with
  | nil => rfl
  | cons t ts ih => simp [sumInputValues, wrapSum, List.foldl, ih]

theorem sumOutputAmounts_wrapSum (os : List TxOut) (acc : Nat) :
    sumOutputAmounts os acc = wrapSum (os.map (·.Amount)) acc := by
  induction os generalizing acc with
  | nil => rfl
  | cons o os ih => simp [sumOutputAmounts, wrapSum, List.foldl, ih]

theorem verifyInputsLoop_true_iff (vi : Nat → Option Bool) (i rem : Nat) :
    (verifyInputsLoop vi i rem = some true ↔ ∀ j < rem, vi (i + j) = some true) := by
  induction rem generalizing i with
  | zero => simp [verifyInputsLoop]
  | succ rem ih =>
    rw [verifyInputsLoop]
    cases hv : vi i with
    | none =>
      simp only [reduceCtorEq, false_iff, not_forall]
      exact ⟨0, by omega, by simp [hv]⟩
    | some b =>
      cases b with
      | false =>
        constructor
        · intro h; simp at h
        · intro hall; have := hall 0 (by omega); simp [hv] at this
      | true =>
        rw [ih (i + 1)]
        constructor
        · intro h j hj
          match j, hj with
          | 0, _ => simpa using hv
          | j + 1, hj => have := h j (by omega); rw [← this]; ring_nf
        · intro hall j hj
          have := hall (j + 1) (by omega)
          rw [← this]; ring_nf

/-- C7, confirmed: with every input value resolving, Fee errors exactly when
the (uint64-wrapped) output sum exceeds the input sum and otherwise returns
their difference; Verify computes the fee first and, when Fee errors,
returns that error without consulting the per-input verdicts at all (the
result is the same for any two verdict functions); when Fee succeeds,
Verify returns true exactly when every input index verifies. -/
theorem c7_fee_verify_control_flow (t : Transaction) (v : TxIn → Nat)
    (value : TxIn → Option Nat) (vi vi2 : Nat → Option Bool) :
    (Fee t (fun x => some (v x)) = none ↔
      wrapSum (t.Inputs.map v) 0 < wrapSum (t.Outputs.map (·.Amount)) 0) ∧
    (wrapSum (t.Outputs.map (·.Amount)) 0 ≤ wrapSum (t.Inputs.map v) 0 →
      Fee t (fun x => some (v x)) =
        some (wrapSum (t.Inputs.map v) 0 - wrapSum (t.Outputs.map (·.Amount)) 0)) ∧
    (Fee t value = none → Verify t value vi = none ∧
      Verify t value vi = Verify t value vi2) ∧
    (∀ fee, Fee t value = some fee →
      (Verify t value vi = some true ↔ ∀ i < t.Inputs.length, vi i = some true)) := by
  refine ⟨?_, ?_, ?_, ?_⟩
  · rw [Fee, sumInputValues_total]
    dsimp only
    rw [sumOutputAmounts_wrapSum]
    split_ifs with hgt
    · simpa using hgt
    · simp; omega
  · intro hle
    rw [Fee, sumInputValues_total]
    dsimp only
    rw [sumOutputAmounts_wrapSum, if_neg (by omega)]
  · intro hfee
    constructor
    · rw [Verify, hfee]
    · rw [Verify, hfee, Verify, hfee]
  · intro fee hfee
    rw [Verify, hfee]
    dsimp only
    rw [verifyInputsLoop_true_iff]
    simp only [Nat.zero_add]

/-- C7 witness: the control-flow characterization instantiated on a
one-input one-output transaction whose input resolves to 10 satoshi against
a 5-satoshi output. -/
theorem c7_witness :
    (Fee c7Tx (fun x => some ((fun _ => 10) x)) = none ↔
      wrapSum (c7Tx.Inputs.map (fun _ => 10)) 0 <
        wrapSum (c7Tx.Outputs.map (·.Amount)) 0) ∧
    (wrapSum (c7Tx.Outputs.map (·.Amount)) 0 ≤
        wrapSum (c7Tx.Inputs.map (fun _ => 10)) 0 →
      Fee c7Tx (fun x => some ((fun _ => 10) x)) =
        some (wrapSum (c7Tx.Inputs.map (fun _ => 10)) 0 -
          wrapSum (c7Tx.Outputs.map (·.Amount)) 0)) ∧
    (Fee c7Tx (fun _ => some 10) = none →
      Verify c7Tx (fun _ => some 10) (fun _ => some true) = none ∧
      Verify c7Tx (fun _ => some 10) (fun _ => some true) =
        Verify c7Tx (fun _ => some 10) (fun _ => some false)) ∧
    (∀ fee, Fee c7Tx (fun _ => some 10) = some fee →
      (Verify c7Tx (fun _ => some 10) (fun _ => some true) = some true ↔
        ∀ i < c7Tx.Inputs.length, (fun _ => some true) i = some true)) :=
  c7_fee_verify_control_flow c7Tx (fun _ => 10) (fun _ => some 10)
    (fun _ => some true) (fun _ => some false)

theorem matchLoop_true_iff (p target : Nat) (rem : Nat) (bs : BitStream) (last : Nat) :
    (matchLoop p target rem bs last = some true ↔
      ∃ i, i < (runningVals p rem bs last).length ∧
        (runningVals p rem bs last).getD i 0 = target ∧
        ∀ j < i, (runningVals p rem bs last).getD j 0 < target) := by
  induction rem generalizing bs last with
  | zero => simp [matchLoop, runningVals]
  | succ rem ih =>
    rw [matchLoop, runningVals]
    cases hd : golombDecode bs p with
    | none => simp
    | some val =>
      obtain ⟨delta, bs1⟩ := val
      dsimp only
      by_cases h1 : (last + delta) % 2 ^ 64 = target
      · rw [if_pos h1]
        constructor
        · intro _
          exact ⟨0, by simp, by simpa using h1, by omega⟩
        · intro _; rfl
      · rw [if_neg h1]
        by_cases h2 : (last + delta) % 2 ^ 64 > target
        · rw [if_pos h2]
          constructor
          · intro h; simp at h
          · rintro ⟨i, hi, heq, hlt⟩
            match i with
            | 0 =>
              exact absurd (by simpa using heq) h1
            | i + 1 =>
              have := hlt 0 (by omega)
              simp only [List.getD_cons_zero] at this
              omega
        · rw [if_neg h2]
          rw [ih bs1 ((last + delta) % 2 ^ 64)]
          constructor
          · rintro ⟨i, hi, heq, hlt⟩
            refine ⟨i + 1, by simpa using hi, by simpa using heq, ?_⟩
            intro j hj
            match j with
            | 0 => simp only [List.getD_cons_zero]; omega
            | j + 1 =>
              simp only [List.getD_cons_succ]
              exact hlt j (by omega)
          · rintro ⟨i, hi, heq, hlt⟩
            match i with
            | 0 => exact absurd (by simpa using heq) h1
            | i + 1 =>
              refine ⟨i, by simpa using hi, by simpa using heq, ?_⟩
              intro j hj
              have := hlt (j + 1) (by omega)
              simpa using this

theorem matchLoop_overshoot (p target : Nat) (rem : Nat) (bs : BitStream)
    (last : Nat) (i : Nat)
    (hi : i < (runningVals p rem bs last).length)
    (hgt : target < (runningVals p rem bs last).getD i 0)
    (hlt : ∀ j < i, (runningVals p rem bs last).getD j 0 < target) :
    matchLoop p target rem bs last = some false := by
  induction rem generalizing bs last i with
  | zero => simp [runningVals] at hi
  | succ rem ih =>
    rw [runningVals] at hi hgt hlt
    cases hd : golombDecode bs p with
    | none => rw [hd] at hi; simp at hi
    | some val =>
      obtain ⟨delta, bs1⟩ := val
      rw [hd] at hi hgt hlt
      dsimp only at hi hgt hlt
      rw [matchLoop, hd]
      dsimp only
      match i with
      | 0 =>
        simp only [List.getD_cons_zero] at hgt
        rw [if_neg (by omega), if_pos (by omega)]
      | i + 1 =>
        have hz := hlt 0 (by omega)
        simp only [List.getD_cons_zero] at hz
        rw [if_neg (by omega), if_neg (by omega)]
        refine ih bs1 ((last + delta) % 2 ^ 64) i (by simpa using hi)
          (by simpa using hgt) ?_
        intro j hj
        have := hlt (j + 1) (by omega)
        simpa using this

/-- C8, confirmed: an empty filter (NumItems = 0, with the BIP 158 modulus
in range) matches nothing, for every query item and every pair of SipHash
keys, without an error; for a non-empty filter, Match streams the decoded
deltas as a running sum against the hashed target of the query item — it
returns true exactly when some running value equals the target with every
earlier running value strictly below it, and it returns false as soon as a
running value strictly exceeds the target. -/
theorem c8_match_behavior :
    (∀ g : GolombCodedSet, ∀ item : List Nat, ∀ k0 k1 : Nat,
      g.NumItems = 0 → g.M < 2 ^ 32 → Match g item k0 k1 = some false) ∧
    (∀ g : GolombCodedSet, ∀ item : List Nat, ∀ k0 k1 th : Nat,
      hashToRange item g.NumItems g.M k0 k1 = some th →
      Match g item k0 k1 = matchLoop g.P th g.NumItems ⟨g.data, 0, 0⟩ 0) ∧
    (∀ p target rem bs last, matchLoop p target rem bs last = some true ↔
      ∃ i, i < (runningVals p rem bs last).length ∧
        (runningVals p rem bs last).getD i 0 = target ∧
        ∀ j < i, (runningVals p rem bs last).getD j 0 < target) ∧
    (∀ p target rem bs last i,
      i < (runningVals p rem bs last).length →
      target < (runningVals p rem bs last).getD i 0 →
      (∀ j < i, (runningVals p rem bs last).getD j 0 < target) →
      matchLoop p target rem bs last = some false) := by
  refine ⟨?_, ?_, matchLoop_true_iff, matchLoop_overshoot⟩
  · intro g item k0 k1 h0 hM
    rw [Match, h0]
    rw [show hashToRange item 0 g.M k0 k1 = some 0 from by
      rw [hashToRange, if_neg (by omega), if_neg (by omega), if_pos rfl]]
    rfl
  · intro g item k0 k1 th hth
    rw [Match, hth]

/-- C8 witness: the empty-filter clause of the behavior theorem
instantiated at the BIP 158 parameters. -/
theorem c8_witness :
    c8EmptyGcs.NumItems = 0 ∧ c8EmptyGcs.M < 2 ^ 32 ∧
    Match c8EmptyGcs [1, 2, 3] 0 0 = some false :=
  ⟨rfl, by norm_num [c8EmptyGcs],
   c8_match_behavior.1 c8EmptyGcs [1, 2, 3] 0 0 rfl (by norm_num [c8EmptyGcs])⟩

theorem readBytes_len (k : Nat) (pre rest : List Nat) (h : pre.length = k) :
    readBytes k (pre ++ rest) = some (pre, rest) := by
  subst h; exact readBytes_exact pre rest

theorem dropTrailingZeros_pad (l : List Nat) (k : Nat) :
    dropTrailingZeros (l ++ List.replicate k 0) = dropTrailingZeros l := by
  unfold dropTrailingZeros
  rw [List.reverse_append, List.reverse_replicate]
  congr 1
  induction k with
  | zero => simp
  | succ k ih => simpa [List.replicate_succ] using ih

theorem leVal_lt_of_bytes (l : List Nat) (hb : ∀ b ∈ l, b < 256) :
    leVal l < 2 ^ (8 * l.length) := by
  induction l with
  | nil => simp [leVal]
  | cons b bs ih =>
    simp only [leVal, List.length_cons]
    have hb0 : b < 256 := hb b (by simp)
    have ihh := ih (fun x hx => hb x (by simp [hx]))
    have hpow : (2 : Nat) ^ (8 * (bs.length + 1)) = 256 * 2 ^ (8 * bs.length) := by
      rw [Nat.mul_succ, pow_add]; ring
    omega

/-- C10, confirmed: the envelope codec flips the magic.  Serialize writes
the magic big-endian while the parser reads it little-endian, so for every
envelope whose checksum is consistent with its payload (and whose fields
satisfy the data-model invariants: command of at most 12 bytes with no
trailing NUL, stored length equal to the payload length and below 2^32),
parsing the serialization succeeds and returns the envelope unchanged in
every field except Magic, which comes back 4-byte byte-reversed. -/
theorem c10_envelope_magic_byteswap (hash256 : List Nat → List Nat)
    (e : NetworkEnvelope)
    (hlen : ∀ x, (hash256 x).length = 32)
    (hbytes : ∀ x, ∀ b ∈ hash256 x, b < 256)
    (hcmd12 : e.Command.length ≤ 12)
    (hcmdz : dropTrailingZeros e.Command = e.Command)
    (hpl : e.PayloadLen = e.Payload.length)
    (hpl32 : e.Payload.length < 2 ^ 32)
    (hck : e.PayloadChecksum = checksumOf hash256 e.Payload) :
    ParseNetworkEnvelope hash256 (SerializeEnvelope e) =
      some { e with Magic := bswap32 e.Magic } := by
  have hpay : e.Payload.take e.PayloadLen ++
      List.replicate (e.PayloadLen - e.Payload.length) 0 = e.Payload := by
    rw [hpl, List.take_length, Nat.sub_self]; simp
  have hcmdpad : (e.Command.take 12 ++
      List.replicate (12 - e.Command.length) 0).length = 12 := by
    rw [List.length_append, List.length_take, List.length_replicate]; omega
  unfold ParseNetworkEnvelope SerializeEnvelope
  rw [hpay]
  simp only [List.append_assoc]
  rw [readBytes_len 4 (beBytes4 e.Magic) _ rfl]
  simp only [Option.bind_eq_bind, Option.some_bind]
  rw [← List.append_assoc (List.take 12 e.Command)]
  rw [readBytes_len 12 _ _ hcmdpad]
  simp only [Option.some_bind]
  rw [readBytes_len 4 (leBytes 4 e.PayloadLen) _ (leBytes_length 4 _)]
  simp only [Option.some_bind]
  rw [readBytes_len 4 (leBytes 4 e.PayloadChecksum) _ (leBytes_length 4 _)]
  simp only [Option.some_bind]
  have hplv : leVal (leBytes 4 e.PayloadLen) = e.PayloadLen := by
    rw [leVal_leBytes, Nat.mod_eq_of_lt]
    rw [hpl]
    exact lt_of_lt_of_le hpl32 (by norm_num)
  have hckv : leVal (leBytes 4 e.PayloadChecksum) = e.PayloadChecksum := by
    rw [leVal_leBytes, Nat.mod_eq_of_lt]
    rw [hck]
    unfold checksumOf
    have hb4 : ∀ b ∈ (hash256 e.Payload).take 4, b < 256 :=
      fun b hb => hbytes e.Payload b (List.mem_of_mem_take hb)
    have hl4 : ((hash256 e.Payload).take 4).length = 4 := by
      simp [List.length_take, hlen]
    calc leVal ((hash256 e.Payload).take 4)
        < 2 ^ (8 * ((hash256 e.Payload).take 4).length) := leVal_lt_of_bytes _ hb4
      _ ≤ 2 ^ (8 * 4) := by rw [hl4]
      _ = 2 ^ (8 * 4) := rfl
  rw [hplv, hpl]
  rw [show readBytes e.Payload.length e.Payload = some (e.Payload, []) from by
    simpa using readBytes_exact e.Payload []]
  simp only [Option.some_bind]
  rw [hckv, if_pos hck]
  have hcmdtake : List.take 12 e.Command = e.Command := List.take_of_length_le hcmd12
  rw [hcmdtake, dropTrailingZeros_pad, hcmdz]
  rfl

/-- C10 witness: the byte-swap round-trip instantiated at a concrete
testnet envelope and a concrete 32-byte hash function. -/
theorem c10_witness :
    ParseNetworkEnvelope c10Hash (SerializeEnvelope c10Env) =
      some { c10Env with Magic := bswap32 c10Env.Magic } :=
  c10_envelope_magic_byteswap c10Hash c10Env
    (fun _ => rfl)
    (fun _ b hb => by rw [List.eq_of_mem_replicate hb]; norm_num)
    (by decide) (by decide) (by decide) (by decide) rfl

/-- C3, counterexample: for s = 0 — outside [1, n) — Verify does not return
false: big.Int ModInverse yields nil (no inverse of 0 mod n) and the
following multiplication dereferences it, a panic modelled as `none`.  The
claim that every out-of-range (r, s) yields a false verdict is therefore
wrong on the code. -/
theorem c3_no_range_check_crash :
    ECVerify Gpoint 1 ⟨1, 0⟩ = none ∧ ECVerify Gpoint 1 ⟨1, 0⟩ ≠ some false := by
  decide

/-- C3, amended: Verify performs no range check at all.  When s has no
inverse mod n (gcd(s, n) ≠ 1, e.g. s = 0 or s = n) the computation crashes
rather than returning false; for any invertible s — in range or not — and
ANY r, it computes u = z·s⁻¹ and v = r·s⁻¹ mod n and returns the comparison
of (uG + v·pub).x mod n against r (crashing if that sum is the point at
infinity, whose x field holds a nil big.Int); consequently an out-of-range
r ≥ n can never be accepted, since x mod n < n ≤ r. -/
theorem c3_verify_behavior (pub : Point) (z r s : Nat) :
    (Nat.gcd s secpN ≠ 1 → ECVerify pub z ⟨r, s⟩ = none) ∧
    (∀ sInv, modInverse s secpN = some sInv →
      (ECVerify pub z ⟨r, s⟩ =
        match pointAdd (ScalarBaseMultiply (z * sInv % secpN))
            (ScalarMulBig pub (r * sInv % secpN)) with
          | Point.inf => none
          | Point.mk x _ => some (decide (x % secpN = r))) ∧
      (secpN ≤ r → ECVerify pub z ⟨r, s⟩ ≠ some true)) := by
  constructor
  · intro hgcd
    unfold ECVerify modInverse
    dsimp only
    rw [if_neg hgcd]
  · intro sInv hsi
    have heq : ECVerify pub z ⟨r, s⟩ =
        match pointAdd (ScalarBaseMultiply (z * sInv % secpN))
            (ScalarMulBig pub (r * sInv % secpN)) with
          | Point.inf => none
          | Point.mk x _ => some (decide (x % secpN = r)) := by
      unfold ECVerify
      dsimp only
      rw [hsi]
    refine ⟨heq, ?_⟩
    intro hr hsome
    rw [heq] at hsome
    cases hadd : pointAdd (ScalarBaseMultiply (z * sInv % secpN))
        (ScalarMulBig pub (r * sInv % secpN)) with
    | inf => rw [hadd] at hsome; exact Option.noConfusion hsome
    | mk x y =>
      rw [hadd] at hsome
      simp only [Option.some_inj, decide_eq_true_eq] at hsome
      have hmod : x % secpN < secpN := Nat.mod_lt _ (by norm_num [secpN])
      omega

/-- C3 witness: the amended characterization instantiated at the generator
point with z = r = s = 1 (an invertible s). -/
theorem c3_witness :
    Nat.gcd 1 secpN = 1 ∧ modInverse 1 secpN = some 1 ∧
    ((ECVerify Gpoint 1 ⟨1, 1⟩ =
      match pointAdd (ScalarBaseMultiply (1 * 1 % secpN))
          (ScalarMulBig Gpoint (1 * 1 % secpN)) with
        | Point.inf => none
        | Point.mk x _ => some (decide (x % secpN = 1))) ∧
     (secpN ≤ 1 → ECVerify Gpoint 1 ⟨1, 1⟩ ≠ some true)) :=
  ⟨by decide, by decide, (c3_verify_behavior Gpoint 1 1 1).2 1 (by decide)⟩
